import Mathlib

/-!
Verification of the `ser` trading-dashboard backend.

Shallow embedding of the statistics engine, mock state store, exchange
adapter helpers and settings sanitizer, translated from:
  - `src/state.ts` (mock store: trades, account, stats, settings merge)
  - `src/binance/service.ts` (adapter: symbol formatting, quantity
    normalization, position close flow, detailed stats)
  - the HTTP layer (settings sanitizer for masked secrets)

JavaScript numbers are modelled as exact rationals (`ℚ`); the floating
point representation itself is out of scope.  Strings that undergo
character-level processing are modelled as `List Char`.
-/

namespace Ser

/-- JS `Math.round`: round half toward `+∞`, i.e. `⌊x + 1/2⌋`. -/
def jsRound (x : ℚ) : ℤ := ⌊x + 1/2⌋

/-- `round(value, precision)` from `state.ts` and `roundNumber` from
`service.ts`: `Math.round(value * 10^p) / 10^p`. -/
def roundTo (x : ℚ) (p : ℕ) : ℚ := (jsRound (x * 10 ^ p) : ℚ) / 10 ^ p

/-- Character strings processed character by character. -/
abbrev Str := List Char

/-- Trade direction (`'long' | 'short'`). -/
inductive TradeType
  | long
  | short
deriving DecidableEq

/-- Trade status (`'active' | 'closed' | 'pending' | 'cancelled'`). -/
inductive TradeStatus
  | active
  | closed
  | pending
  | cancelled
deriving DecidableEq

/-- `TradeRecord` from `state.ts` (and the shared `Trade` shape).  Fields
not used by any statistics / close-trade computation (stop-loss,
take-profit, signal labels, order id, trailing-stop state) are carried
through unchanged by the code and are omitted from the model. -/
structure Trade where
  id : String
  symbol : Str
  type : TradeType
  status : TradeStatus
  entryPrice : ℚ
  exitPrice : Option ℚ
  quantity : ℚ
  leverage : ℚ
  profit : Option ℚ
  profitPercent : Option ℚ
  entryTime : String
  exitTime : Option String
deriving DecidableEq

/-- `trade.profit ?? d`. -/
def profitOr (d : ℚ) (t : Trade) : ℚ := t.profit.getD d

/-! ## Statistics engine

The mock store's `getDetailedStats` (`state.ts:1416-1466`) and the
adapter's `getDetailedStats` (`service.ts:160-185`) compute the same
reductions over a list of closed trades; the helpers below are those
shared reductions, used by both embeddings. -/

/-- `closedTrades.filter((t) => (t.profit ?? 0) > 0)`. -/
def winsOf (l : List Trade) : List Trade :=
  l.filter (fun t => decide ((0 : ℚ) < profitOr 0 t))

/-- `closedTrades.filter((t) => (t.profit ?? 0) < 0)`. -/
def lossesOf (l : List Trade) : List Trade :=
  l.filter (fun t => decide (profitOr 0 t < (0 : ℚ)))

/-- `l.reduce((sum, t) => sum + (t.profit ?? 0), 0)`. -/
def sumProfits (l : List Trade) : ℚ :=
  l.foldl (fun s t => s + profitOr 0 t) 0

/-- `wins.length === 0 ? 0 : wins.reduce(...) / wins.length`. -/
def avgProfitOf (l : List Trade) : ℚ :=
  if (winsOf l).length = 0 then 0 else sumProfits (winsOf l) / (winsOf l).length

/-- `losses.length === 0 ? 0 : Math.abs(losses.reduce(...) / losses.length)`. -/
def avgLossOf (l : List Trade) : ℚ :=
  if (lossesOf l).length = 0 then 0
  else |sumProfits (lossesOf l) / (lossesOf l).length|

/-- `closedTrades.reduce((max, t) => Math.max(max, t.profit ?? -Infinity), 0)`.
On rationals `max acc (-∞) = acc`, so the `null`-profit step leaves the
accumulator unchanged. -/
def bestTradeOf (l : List Trade) : ℚ :=
  l.foldl (fun m t => match t.profit with | none => m | some p => max m p) 0

/-- `closedTrades.reduce((min, t) => Math.min(min, t.profit ?? Infinity), 0)`. -/
def worstTradeOf (l : List Trade) : ℚ :=
  l.foldl (fun m t => match t.profit with | none => m | some p => min m p) 0

/-- `closedTrades.reduce((sum, t) => sum + t.entryPrice * t.quantity, 0)`. -/
def totalVolumeOf (l : List Trade) : ℚ :=
  l.foldl (fun s t => s + t.entryPrice * t.quantity) 0

/-- `closed.length === 0 ? 0 : (wins.length / closed.length) * 100`. -/
def winRateOf (l : List Trade) : ℚ :=
  if l.length = 0 then 0 else ((winsOf l).length : ℚ) / l.length * 100

/-- The claim-relevant fields of the detailed-statistics record. -/
structure DetailedStats where
  totalTrades : ℕ
  winRate : ℚ
  avgProfit : ℚ
  avgLoss : ℚ
  bestTrade : ℚ
  worstTrade : ℚ
  totalVolume : ℤ
deriving DecidableEq

/-- `getDetailedStats` from `state.ts:1416-1466`: the whole history list is
taken as the closed-trade list (`const closedTrades = state.trades.history`). -/
def mockDetailedStats (active history : List Trade) : DetailedStats :=
  { totalTrades := history.length + active.length
    winRate := roundTo (winRateOf history) 2
    avgProfit := roundTo (avgProfitOf history) 2
    avgLoss := roundTo (avgLossOf history) 2
    bestTrade := roundTo (bestTradeOf history) 2
    worstTrade := roundTo (worstTradeOf history) 2
    totalVolume := jsRound (totalVolumeOf history) }

/-- `history.filter((t) => t.status === 'closed')`. -/
def closedOf (l : List Trade) : List Trade :=
  l.filter (fun t => decide (t.status = TradeStatus.closed))

/-- `BinanceFuturesService.getDetailedStats` from `service.ts:160-185`:
the fetched history is filtered to `status === 'closed'`; `activeCount`
is `summary.activeTrades`. -/
def binanceDetailedStats (activeCount : ℕ) (history : List Trade) : DetailedStats :=
  let ct := closedOf history
  { totalTrades := ct.length + activeCount
    winRate := roundTo (winRateOf ct) 2
    avgProfit := roundTo (avgProfitOf ct) 2
    avgLoss := roundTo (avgLossOf ct) 2
    bestTrade := roundTo (bestTradeOf ct) 2
    worstTrade := roundTo (worstTradeOf ct) 2
    totalVolume := jsRound (totalVolumeOf ct) }

/-! ## Mock state store (`state.ts`) -/

/-- Account position side (`'LONG' | 'SHORT'`). -/
inductive PositionSide
  | LONG
  | SHORT
deriving DecidableEq

/-- `AccountPosition` from `state.ts`. -/
structure AccountPosition where
  symbol : Str
  side : PositionSide
  entryPrice : ℚ
  quantity : ℚ
  leverage : ℚ
deriving DecidableEq

/-- Activity-log level.  Log entries also carry id / timestamp / Arabic
message strings built from the clock and `Math.random`; only the level and
the entry count are modelled. -/
inductive LogLevel
  | info
  | warning
  | error
  | success
deriving DecidableEq

/-- The claim-relevant part of `AccountState`. -/
structure AccountState where
  totalBalance : ℚ
  availableBalance : ℚ
  positions : List AccountPosition
deriving DecidableEq

/-- The module-level mutable `state` of `state.ts`, restricted to the
parts the claims touch. -/
structure Store where
  active : List Trade
  history : List Trade
  account : AccountState
  logs : List LogLevel
deriving DecidableEq

/-- `MAX_LOGS = 100`. -/
def MAX_LOGS : ℕ := 100

/-- `addLog` (`state.ts`): `state.logs.unshift(log)` then truncate to
`MAX_LOGS`. -/
def addLog (level : LogLevel) (logs : List LogLevel) : List LogLevel :=
  (level :: logs).take MAX_LOGS

/-- `str.replace(c, '')` with a string pattern: JS replaces only the first
occurrence. -/
def removeFirstChar (c : Char) : Str → Str
  | [] => []
  | x :: xs => if x = c then xs else x :: removeFirstChar c xs

/-- `toSymbolKey` (`state.ts`): `symbol.replace('/', '').toUpperCase()`. -/
def toSymbolKey (symbol : Str) : Str :=
  (removeFirstChar '/' symbol).map Char.toUpper

/-- `calculateProfit` (`state.ts:1086-1095`). -/
def calculateProfit (t : Trade) (exitPrice : ℚ) : ℚ × ℚ :=
  let direction : ℚ := if t.type = TradeType.long then 1 else -1
  let profit := (exitPrice - t.entryPrice) * t.quantity * direction
  let basis := t.entryPrice * t.quantity
  let profitPercent := if basis = 0 then 0 else profit / basis * 100
  (roundTo profit 2, roundTo profitPercent 2)

/-- `marginUsed` (`state.ts`): `Σ entryPrice*quantity / Math.max(leverage, 1)`. -/
def marginUsed (positions : List AccountPosition) : ℚ :=
  positions.foldl
    (fun acc p => acc + p.entryPrice * p.quantity / max p.leverage 1) 0

/-- `syncAccountBalances` (`state.ts:1097-1108`):
`available = round(Math.max(total - marginUsed(), 0), 2)`. -/
def syncAccountBalances (a : AccountState) : AccountState :=
  { a with availableBalance := roundTo (max (a.totalBalance - marginUsed a.positions) 0) 2 }

/-- `findIndex` + `splice(i, 1)`: remove the first trade whose `id`
matches, returning it and the remaining list. -/
def removeFirstById : List Trade → String → Option (Trade × List Trade)
  | [], _ => none
  | t :: ts, tid =>
    if t.id = tid then some (t, ts)
    else
      match removeFirstById ts tid with
      | none => none
      | some (f, rest) => some (f, t :: rest)

/-- `removePosition` (`state.ts`): `findIndex` on the symbol key +
`splice(i, 1)` (first match only, no-op when absent). -/
def removePosition : List AccountPosition → Str → List AccountPosition
  | [], _ => []
  | p :: ps, key =>
    if p.symbol = key then ps else p :: removePosition ps key

/-- `closeTrade` (`state.ts:1192-1226`).  The market price used for the
exit (`getMarketSnapshot(...)?.price`) is produced by a time-seeded
sinusoidal jitter of a fixed baseline (`Date.now`, `Math.sin`); it is
modelled as an oracle `priceOf` from the symbol key to an optional price.
`new Date().toISOString()` is modelled as the parameter `now`. -/
def closeTrade (priceOf : Str → Option ℚ) (now : String) (st : Store)
    (tid : String) : Option Trade × Store :=
  match removeFirstById st.active tid with
  | none => (none, st)
  | some (t, rest) =>
    let basePrice := (priceOf (toSymbolKey t.symbol)).getD t.entryPrice
    let adjustment : ℚ := if t.type = TradeType.long then 2/5 else -(2/5)
    let exitPrice := roundTo (basePrice + adjustment) 2
    let pp := calculateProfit t exitPrice
    let closedTrade : Trade :=
      { t with status := TradeStatus.closed
               exitPrice := some exitPrice
               exitTime := some now
               profit := some pp.1
               profitPercent := some pp.2 }
    let account :=
      syncAccountBalances
        { st.account with
            totalBalance := roundTo (st.account.totalBalance + pp.1) 2
            positions := removePosition st.account.positions (toSymbolKey t.symbol) }
    let logs := addLog (if 0 ≤ pp.1 then LogLevel.success else LogLevel.warning) st.logs
    (some closedTrade,
      { active := rest
        history := closedTrade :: st.history
        account := account
        logs := logs })

/-- Iteration of `closeAllTrades` over a snapshot of the active ids. -/
def closeAllGo (priceOf : Str → Option ℚ) (now : String) :
    List String → Store → List Trade × Store
  | [], st => ([], st)
  | tid :: tids, st =>
    match closeTrade priceOf now st tid with
    | (none, st') => closeAllGo priceOf now tids st'
    | (some t, st') =>
      let r := closeAllGo priceOf now tids st'
      (t :: r.1, r.2)

/-- `closeAllTrades` (`state.ts:1228-1238`): snapshot the active list,
close each trade by id, collect the non-null results. -/
def closeAllTrades (priceOf : Str → Option ℚ) (now : String) (st : Store) :
    List Trade × Store :=
  closeAllGo priceOf now (st.active.map Trade.id) st

/-! ## Exchange adapter helpers (`src/binance/service.ts`) -/

/-- The ranked list of recognized quote assets (`QUOTE_ASSETS`). -/
def QUOTE_ASSETS : List Str :=
  ["USDT".data, "USDC".data, "BUSD".data, "TUSD".data, "FDUSD".data,
   "BTC".data, "ETH".data, "BNB".data, "TRY".data, "EUR".data,
   "AUD".data, "GBP".data, "DAI".data, "BRL".data, "IDR".data]

/-- Iteration of `formatDisplaySymbol` over the quote-asset list:
`if (symbol.endsWith(quote)) return base + '/' + quote`. -/
def fdsGo : List Str → Str → Str
  | [], symbol => symbol
  | q :: qs, symbol =>
    if q.isSuffixOf symbol then
      symbol.take (symbol.length - q.length) ++ '/' :: q
    else fdsGo qs symbol

/-- `formatDisplaySymbol` (`service.ts:467-475`). -/
def formatDisplaySymbol (symbol : Str) : Str :=
  fdsGo QUOTE_ASSETS symbol

/-- `pairToSymbol` (`service.ts:477-480`):
`if (!pair) return ''; return pair.replace('/', '').toUpperCase()`. -/
def pairToSymbol (pair : Str) : Str :=
  if pair = [] then [] else (removeFirstChar '/' pair).map Char.toUpper

/-- Decimal digits of a natural number, most significant first. -/
def natDigits (n : ℕ) : Str := Nat.toDigits 10 n

/-- JS `quantity.toFixed(8)` for a positive rational: the decimal string
with exactly 8 fraction digits, where the scaled integer is the nearest
one (ties toward the larger), i.e. `⌊q·10^8 + 1/2⌋`. -/
def toFixed8 (q : ℚ) : Str :=
  let n := (jsRound (q * 10 ^ 8)).toNat
  let f := natDigits (n % 10 ^ 8)
  natDigits (n / 10 ^ 8) ++ '.' :: (List.replicate (8 - f.length) '0' ++ f)

/-- `.replace(/\.0+$/, '')`: remove a final dot-then-only-zeros suffix
(leftmost regex match: the first dot after which only zeros remain). -/
def stripDotZeros : Str → Str
  | [] => []
  | c :: rest =>
    if c = '.' ∧ rest ≠ [] ∧ rest.all (fun x => x = '0') then []
    else c :: stripDotZeros rest

/-- `.replace(/0+$/, '')`: drop the maximal run of trailing zeros. -/
def dropTrailingZeros (s : Str) : Str :=
  (s.reverse.dropWhile (fun x => x = '0')).reverse

/-- `.replace(/\.$/, '')`: drop a single trailing dot. -/
def dropTrailingDot (s : Str) : Str :=
  match s.reverse with
  | '.' :: r => r.reverse
  | _ => s

/-- `normalizeQuantity` (`service.ts:489-493`). -/
def normalizeQuantity (q : ℚ) : Str :=
  if q ≤ 0 then ['0']
  else dropTrailingDot (dropTrailingZeros (stripDotZeros (toFixed8 q)))

/-- Value denoted by a decimal string such as `"12.34"` (used to compare
the formatted quantity with the quantity it is supposed to denote). -/
def digitsVal (l : Str) : ℕ :=
  l.foldl (fun a c => a * 10 + (c.toNat - 48)) 0

/-- JS `str.split(c)`: split at every occurrence of `c`. -/
def splitOnChar (c : Char) : Str → List Str
  | [] => [[]]
  | x :: xs =>
    match splitOnChar c xs with
    | [] => [[]]
    | p :: ps => if x = c then [] :: p :: ps else (x :: p) :: ps

/-- Rational denoted by a decimal digit string with at most one dot. -/
def denoteDecimal (s : Str) : ℚ :=
  match splitOnChar '.' s with
  | [i] => digitsVal i
  | [i, f] => (digitsVal i : ℚ) + (digitsVal f : ℚ) / 10 ^ f.length
  | _ => 0

/-- Binance position side (`'LONG' | 'SHORT' | 'BOTH'`). -/
inductive FPosSide
  | LONG
  | SHORT
  | BOTH
deriving DecidableEq

/-- Wire string of a Binance position side. -/
def posSideStr : FPosSide → Str
  | FPosSide.LONG => "LONG".data
  | FPosSide.SHORT => "SHORT".data
  | FPosSide.BOTH => "BOTH".data

/-- `FuturesPositionRisk`, restricted to the fields the close flow reads.
`positionAmt` is the numeric value `parseFloat(position.positionAmt)`. -/
structure FPosition where
  symbol : Str
  positionAmt : ℚ
  positionSide : FPosSide
deriving DecidableEq

/-- Order side of the submitted close order. -/
inductive OrderSide
  | SELL
  | BUY
deriving DecidableEq

/-- The market-order payload built by `closePosition`. -/
structure OrderPayload where
  symbol : Str
  side : OrderSide
  quantity : Str
  reduceOnly : Bool
  positionSide : FPosSide
deriving DecidableEq

/-- `ClosePositionResult` (`service.ts`), with the raw order response
omitted. -/
structure ClosePositionResult where
  success : Bool
  symbol : Str
  positionSide : FPosSide
  error : Option Str
deriving DecidableEq

/-- `matchesTradeId` (`service.ts:265-274`). -/
def matchesTradeId (p : FPosition) (tradeId : Str) : Bool :=
  match splitOnChar ':' tradeId with
  | [symbol, side] =>
    decide (symbol = p.symbol) &&
      decide (side.map Char.toUpper = posSideStr p.positionSide)
  | _ =>
    decide (p.symbol = tradeId) ||
      decide (p.symbol ++ '-' :: posSideStr p.positionSide = tradeId)

/-- `closePosition` (`service.ts:217-249`).  The remote order submission
is modelled by the oracle `outcome` (`none` = accepted, `some msg` =
rejected with message `msg`); the list in the result collects the order
payloads actually submitted. -/
def closePosition (outcome : OrderPayload → Option Str) (p : FPosition) :
    ClosePositionResult × List OrderPayload :=
  let quantity := |p.positionAmt|
  if quantity = 0 then
    ({ success := true
       symbol := p.symbol
       positionSide := p.positionSide
       error := some "NO_QUANTITY".data }, [])
  else
    let payload : OrderPayload :=
      { symbol := p.symbol
        side := if 0 < p.positionAmt then OrderSide.SELL else OrderSide.BUY
        quantity := normalizeQuantity quantity
        reduceOnly := true
        positionSide := p.positionSide }
    match outcome payload with
    | none =>
      ({ success := true, symbol := p.symbol, positionSide := p.positionSide,
         error := none }, [payload])
    | some msg =>
      ({ success := false, symbol := p.symbol, positionSide := p.positionSide,
         error := some msg }, [payload])

/-- `closePositionByTradeId` (`service.ts:192-201`). -/
def closePositionByTradeId (outcome : OrderPayload → Option Str)
    (positions : List FPosition) (tradeId : Str) :
    ClosePositionResult × List OrderPayload :=
  match positions.find? (fun p => matchesTradeId p tradeId) with
  | none =>
    ({ success := false
       symbol := "UNKNOWN".data
       positionSide := FPosSide.BOTH
       error := some "POSITION_NOT_FOUND".data }, [])
  | some target => closePosition outcome target

/-! ## Settings sanitizer and merge-update

`sanitizeIncomingSettings` lives in the HTTP layer, `updateSettings` in
`state.ts:1114-1138`.  The settings object and the update payload are
modelled as association lists from field names to values (`lookup` =
JS property read; later-spread-wins = earlier entry wins on `lookup`). -/

/-- A JSON-ish settings field value. -/
inductive SettingValue
  | vStr (s : Str)
  | vNum (q : ℚ)
  | vBool (b : Bool)
deriving DecidableEq

/-- Association-list model of a JS object holding settings fields. -/
abbrev SettingsMap := List (String × SettingValue)

/-- JS whitespace as far as `trim` is concerned (ASCII whitespace plus
no-break space and BOM; other Unicode space separators do not occur in
this code base). -/
def isJsSpace (c : Char) : Bool :=
  c = ' ' || c = '\t' || c = '\n' || c = '\r' ||
    c = '\x0b' || c = '\x0c' || c = ' ' || c = '﻿'

/-- The masked/placeholder test applied to an incoming secret string:
`value.startsWith('__env__') || value.trim() === '' || value.includes('•')`. -/
def isMaskedValue (s : Str) : Bool :=
  "__env__".data.isPrefixOf s || s.all isJsSpace || s.contains '•'

/-- Whether an incoming field value triggers the delete in
`sanitizeIncomingSettings` (only string values are inspected). -/
def shouldDropSecret : Option SettingValue → Bool
  | some (SettingValue.vStr s) => isMaskedValue s
  | _ => false

/-- JS `delete obj[k]` on the association-list model. -/
def eraseKey (k : String) (m : SettingsMap) : SettingsMap :=
  m.filter (fun e => decide (e.1 ≠ k))

/-- `sanitizeIncomingSettings` (HTTP layer): drop `binanceApiKey` /
`binanceApiSecret` when the corresponding environment variable is set or
the submitted value is a masked/placeholder/empty string. -/
def sanitizeIncomingSettings (envKey envSecret : Bool) (payload : SettingsMap) :
    SettingsMap :=
  let p1 :=
    if envKey || shouldDropSecret (payload.lookup "binanceApiKey") then
      eraseKey "binanceApiKey" payload
    else payload
  if envSecret || shouldDropSecret (p1.lookup "binanceApiSecret") then
    eraseKey "binanceApiSecret" p1
  else p1

/-- The per-field assignment in `updateSettings`: a string submitted for a
field whose current value is a number is coerced with `Number(value)`;
`numParse` is that (environment-provided) string-to-number conversion. -/
def coerceValue (numParse : Str → ℚ) (current : Option SettingValue)
    (v : SettingValue) : SettingValue :=
  match current, v with
  | some (SettingValue.vNum _), SettingValue.vStr s => SettingValue.vNum (numParse s)
  | _, _ => v

/-- `updateSettings` (`state.ts:1114-1138`), restricted to the settings
record itself: build `updated` from the payload (coercing against the
current settings) and merge `{...state.settings, ...updated}`. -/
def updateSettings (numParse : Str → ℚ) (settings payload : SettingsMap) :
    SettingsMap :=
  payload.map (fun e => (e.1, coerceValue numParse (settings.lookup e.1) e.2)) ++
    settings

/-! ## Spec-side definitions

These follow the specification's wording, for comparison against the
source-derived definitions above. -/

/-- The profits present on a trade list (a `null` profit contributes
nothing to the best/worst reductions, since `Math.max(acc, -Infinity) = acc`). -/
def profitsOf (l : List Trade) : List ℚ := l.filterMap Trade.profit

/-- Spec wording: "the maximum closed-trade profit floored at 0". -/
def maxFromZero (ps : List ℚ) : ℚ := ps.foldr max 0

/-- Spec wording: "the minimum closed-trade profit floored at 0". -/
def minFromZero (ps : List ℚ) : ℚ := ps.foldr min 0

/-- The claim's available-balance formula, verbatim:
`available = total − Σ (entryPrice × quantity) / leverage`. -/
def specAvailableBalance (a : AccountState) : ℚ :=
  a.totalBalance -
    a.positions.foldr (fun p s => p.entryPrice * p.quantity / p.leverage + s) 0

/-- The balance relation `syncAccountBalances` actually establishes:
`available = round(Math.max(total − marginUsed, 0), 2)`. -/
def balancesSynced (st : Store) : Prop :=
  st.account.availableBalance =
    roundTo (max (st.account.totalBalance - marginUsed st.account.positions) 0) 2

/-! ## Concrete fixtures for witnesses and counterexamples -/

/-- Market-price oracle with no data: `getMarketSnapshot` returns `null`
for every symbol, so `closeTrade` falls back to the entry price. -/
def noPrice : Str → Option ℚ := fun _ => none

/-- Order-submission oracle that accepts every order. -/
def okOutcome : OrderPayload → Option Str := fun _ => none

/-- Closed winning trade: profit `100`. -/
def wTradeA : Trade :=
  { id := "h-1", symbol := "BTC/USDT".data, type := TradeType.long
    status := TradeStatus.closed, entryPrice := 10, exitPrice := some 11
    quantity := 2, leverage := 5, profit := some 100, profitPercent := some 10
    entryTime := "t0", exitTime := some "t1" }

/-- Closed losing trade: profit `-50`. -/
def wTradeB : Trade :=
  { id := "h-2", symbol := "ETH/USDT".data, type := TradeType.short
    status := TradeStatus.closed, entryPrice := 20, exitPrice := some 19
    quantity := 1, leverage := 3, profit := some (-50), profitPercent := some (-5)
    entryTime := "t0", exitTime := some "t1" }

/-- Closed break-even trade: profit `0`. -/
def wTradeC : Trade :=
  { id := "h-3", symbol := "SOL/USDT".data, type := TradeType.long
    status := TradeStatus.closed, entryPrice := 5, exitPrice := some 5
    quantity := 4, leverage := 2, profit := some 0, profitPercent := some 0
    entryTime := "t0", exitTime := some "t1" }

/-- Active demo trade used to exercise `closeTrade`. -/
def wActiveTrade : Trade :=
  { id := "t-1", symbol := "BTC/USDT".data, type := TradeType.long
    status := TradeStatus.active, entryPrice := 10, exitPrice := none
    quantity := 1, leverage := 1, profit := none, profitPercent := none
    entryTime := "t0", exitTime := none }

/-- Open position whose margin (`100/3`) is not a 2-decimal number. -/
def wPosition : AccountPosition :=
  { symbol := "ETHUSDT".data, side := PositionSide.LONG
    entryPrice := 100, quantity := 1, leverage := 3 }

/-- Demo store: one active trade, one unrelated position. -/
def wStore : Store :=
  { active := [wActiveTrade]
    history := []
    account := { totalBalance := 100, availableBalance := 0, positions := [wPosition] }
    logs := [] }

/-- Position the quantity-format bug is exhibited on (`positionAmt = 10`). -/
def wFPosition : FPosition :=
  { symbol := "BTCUSDT".data, positionAmt := 10, positionSide := FPosSide.LONG }

/-- Position with zero quantity. -/
def wFPositionZero : FPosition :=
  { symbol := "ETHUSDT".data, positionAmt := 0, positionSide := FPosSide.SHORT }

/-- Stored settings holding real secrets and a numeric field. -/
def wSettings : SettingsMap :=
  [("binanceApiKey", SettingValue.vStr "realkey".data),
   ("binanceApiSecret", SettingValue.vStr "topsecret".data),
   ("maxRiskPerTrade", SettingValue.vNum 2)]

/-- Incoming settings payload: a bullet-masked key, an empty secret, and a
fresh numeric field. -/
def wPayload : SettingsMap :=
  [("binanceApiKey", SettingValue.vStr "•••key".data),
   ("binanceApiSecret", SettingValue.vStr "".data),
   ("maxRiskPerTrade", SettingValue.vNum 5)]

/-- A fixed interpretation of the JS `Number` conversion. -/
def wNumParse : Str → ℚ := fun _ => 0

end Ser

namespace Ser

/-! ## Rounding lemmas -/

theorem roundTo_mono {x y : ℚ} (p : ℕ) (h : x ≤ y) : roundTo x p ≤ roundTo y p := by
  have hf : jsRound (x * 10 ^ p) ≤ jsRound (y * 10 ^ p) := by
    apply Int.floor_le_floor
    have hm : x * 10 ^ p ≤ y * 10 ^ p :=
      mul_le_mul_of_nonneg_right h (by positivity)
    linarith
  rw [roundTo, roundTo]
  gcongr

theorem roundTo_zero : roundTo 0 2 = 0 := by norm_num [roundTo, jsRound]

theorem roundTo_100 : roundTo 100 2 = 100 := by norm_num [roundTo, jsRound]

/-! ## Claim C10: `closeTrade` on an unknown id is a strict no-op -/

theorem removeFirstById_eq_none {l : List Trade} {tid : String}
    (h : ∀ t ∈ l, t.id ≠ tid) : removeFirstById l tid = none := by
  induction l with
  | nil => rfl
  | cons a l ih =>
    simp only [removeFirstById]
    rw [if_neg (h a (List.mem_cons_self a l)),
      ih (fun t ht => h t (List.mem_cons_of_mem a ht))]

/-- Claim C10: for every trade id not present in the mock store's active
list, `closeTrade` returns `null` and leaves the entire store — active
list, history, account balances, positions and activity log — exactly as
before. -/
theorem closeTrade_not_found (priceOf : Str → Option ℚ) (now : String)
    (st : Store) (tid : String) (h : ∀ t ∈ st.active, t.id ≠ tid) :
    closeTrade priceOf now st tid = (none, st) := by
  unfold closeTrade
  rw [removeFirstById_eq_none h]

/-- Witness for `closeTrade_not_found` at a concrete store and id. -/
theorem closeTrade_not_found_witness :
    (∀ t ∈ wStore.active, t.id ≠ "missing") ∧
      closeTrade noPrice "now" wStore "missing" = (none, wStore) :=
  ⟨by decide, closeTrade_not_found noPrice "now" wStore "missing" (by decide)⟩

/-! ## Claim C9: structured domain results of `closePositionByTradeId` -/

/-- Claim C9: `closePositionByTradeId` returns structured results for the
two expected domain outcomes: no matching position yields
`success = false` with a `POSITION_NOT_FOUND` error and no order, and a
matched position with zero quantity yields `success = true` with a
`NO_QUANTITY` marker and no order. -/
theorem closePositionByTradeId_domain (outcome : OrderPayload → Option Str)
    (positions : List FPosition) (tradeId : Str) :
    ((∀ p ∈ positions, matchesTradeId p tradeId = false) →
      closePositionByTradeId outcome positions tradeId =
        ({ success := false, symbol := "UNKNOWN".data,
           positionSide := FPosSide.BOTH,
           error := some "POSITION_NOT_FOUND".data }, [])) ∧
    (∀ p, positions.find? (fun q => matchesTradeId q tradeId) = some p →
      p.positionAmt = 0 →
      (closePositionByTradeId outcome positions tradeId).1.success = true ∧
      (closePositionByTradeId outcome positions tradeId).1.error =
        some "NO_QUANTITY".data ∧
      (closePositionByTradeId outcome positions tradeId).2 = []) := by
  constructor
  · intro h
    have hf : positions.find? (fun q => matchesTradeId q tradeId) = none := by
      rw [List.find?_eq_none]
      intro x hx
      simp [h x hx]
    simp only [closePositionByTradeId, hf]
  · intro p hp hz
    simp only [closePositionByTradeId, hp]
    unfold closePosition
    rw [hz, abs_zero, if_pos rfl]
    exact ⟨rfl, rfl, rfl⟩

/-- Witness for `closePositionByTradeId_domain`: a position list that does
not match the requested id, and a zero-quantity position that does. -/
theorem closePositionByTradeId_domain_witness :
    ((∀ p ∈ [wFPosition], matchesTradeId p "ETHUSDT:LONG".data = false) ∧
      closePositionByTradeId okOutcome [wFPosition] "ETHUSDT:LONG".data =
        ({ success := false, symbol := "UNKNOWN".data,
           positionSide := FPosSide.BOTH,
           error := some "POSITION_NOT_FOUND".data }, [])) ∧
    (List.find? (fun q => matchesTradeId q "ETHUSDT:SHORT".data)
        [wFPositionZero] = some wFPositionZero ∧
      wFPositionZero.positionAmt = 0 ∧
      (closePositionByTradeId okOutcome [wFPositionZero]
          "ETHUSDT:SHORT".data).1.success = true ∧
      (closePositionByTradeId okOutcome [wFPositionZero]
          "ETHUSDT:SHORT".data).1.error = some "NO_QUANTITY".data ∧
      (closePositionByTradeId okOutcome [wFPositionZero]
          "ETHUSDT:SHORT".data).2 = []) := by
  refine ⟨⟨by decide, (closePositionByTradeId_domain okOutcome [wFPosition]
    "ETHUSDT:LONG".data).1 (by decide)⟩, by decide, by decide, ?_⟩
  exact (closePositionByTradeId_domain okOutcome [wFPositionZero]
    "ETHUSDT:SHORT".data).2 wFPositionZero (by decide) (by decide)

/-! ## Claim C4: the quantity formatter corrupts round integer quantities

`normalizeQuantity` chains `replace(/\.0+$/,'')` and `replace(/0+$/,'')`:
once the first replace has removed the all-zero fraction of an integral
quantity, the second strips trailing zeros of the *integer part*, so the
formatted string no longer denotes the input quantity. -/

/-- Claim C4 (code bug): at quantity `10` the formatter produces `"1"`
(`"10.00000000"` → `"10"` → `"1"`), which denotes `1`, not `10`; the close
order submitted for a 10-unit position is sized `1`. -/
theorem normalizeQuantity_integer_bug :
    normalizeQuantity 10 = ['1'] ∧
    denoteDecimal (normalizeQuantity 10) = 1 ∧
    denoteDecimal (normalizeQuantity 10) ≠ 10 ∧
    (closePosition okOutcome wFPosition).2.map OrderPayload.quantity = [['1']] := by
  have h : jsRound ((10:ℚ) * 10 ^ 8) = 1000000000 := by norm_num [jsRound]
  have h1 : normalizeQuantity 10 = ['1'] := by
    simp only [normalizeQuantity, toFixed8, h]
    norm_num
    decide
  have hs : splitOnChar '.' ['1'] = [['1']] := by decide
  have hd : digitsVal ['1'] = 1 := by decide
  have h2 : denoteDecimal ['1'] = 1 := by
    simp [denoteDecimal, hs, hd]
  refine ⟨h1, ?_, ?_, ?_⟩
  · rw [h1, h2]
  · rw [h1, h2]; norm_num
  · simp only [closePosition, wFPosition]
    rw [if_neg (by norm_num)]
    simp [okOutcome, h1, abs_of_pos]

end Ser

namespace Ser

/-! ## Claim C1: the three-trade statistics scenario -/

/-- Claim C1: a closed-trade history of exactly three trades with profits
`100`, `-50` and `0` yields `winRate = 33.33`, `avgProfit = 100`,
`avgLoss = 50`, `bestTrade = 100`, `worstTrade = -50` and `totalVolume`
equal to the rounded sum of `entryPrice × quantity` over the three trades,
in both the mock store's and the adapter's detailed statistics. -/
theorem detailedStats_scenario
    (active : List Trade) (n : ℕ) (t1 t2 t3 : Trade)
    (h1 : t1.profit = some 100) (h2 : t2.profit = some (-50))
    (h3 : t3.profit = some 0)
    (s1 : t1.status = TradeStatus.closed) (s2 : t2.status = TradeStatus.closed)
    (s3 : t3.status = TradeStatus.closed) :
    (mockDetailedStats active [t1, t2, t3]).winRate = 3333/100 ∧
    (mockDetailedStats active [t1, t2, t3]).avgProfit = 100 ∧
    (mockDetailedStats active [t1, t2, t3]).avgLoss = 50 ∧
    (mockDetailedStats active [t1, t2, t3]).bestTrade = 100 ∧
    (mockDetailedStats active [t1, t2, t3]).worstTrade = -50 ∧
    (mockDetailedStats active [t1, t2, t3]).totalVolume =
      jsRound (t1.entryPrice * t1.quantity + t2.entryPrice * t2.quantity +
        t3.entryPrice * t3.quantity) ∧
    (binanceDetailedStats n [t1, t2, t3]).winRate = 3333/100 ∧
    (binanceDetailedStats n [t1, t2, t3]).avgProfit = 100 ∧
    (binanceDetailedStats n [t1, t2, t3]).avgLoss = 50 ∧
    (binanceDetailedStats n [t1, t2, t3]).bestTrade = 100 ∧
    (binanceDetailedStats n [t1, t2, t3]).worstTrade = -50 ∧
    (binanceDetailedStats n [t1, t2, t3]).totalVolume =
      jsRound (t1.entryPrice * t1.quantity + t2.entryPrice * t2.quantity +
        t3.entryPrice * t3.quantity) := by
  have hcl : closedOf [t1, t2, t3] = [t1, t2, t3] := by
    simp [closedOf, s1, s2, s3]
  have hw : winsOf [t1, t2, t3] = [t1] := by
    simp [winsOf, profitOr, h1, h2, h3]
  have hl : lossesOf [t1, t2, t3] = [t2] := by
    simp [lossesOf, profitOr, h1, h2, h3]
  have hrate : roundTo (winRateOf [t1, t2, t3]) 2 = 3333/100 := by
    rw [winRateOf]
    norm_num [hw, roundTo, jsRound]
  have havgp : roundTo (avgProfitOf [t1, t2, t3]) 2 = 100 := by
    rw [avgProfitOf, hw]
    norm_num [sumProfits, profitOr, h1, roundTo, jsRound]
  have havgl : roundTo (avgLossOf [t1, t2, t3]) 2 = 50 := by
    rw [avgLossOf, hl]
    norm_num [sumProfits, profitOr, h2, roundTo, jsRound]
  have hbest : roundTo (bestTradeOf [t1, t2, t3]) 2 = 100 := by
    simp only [bestTradeOf, List.foldl_cons, List.foldl_nil, h1, h2, h3]
    norm_num [max_def, roundTo, jsRound]
  have hworst : roundTo (worstTradeOf [t1, t2, t3]) 2 = -50 := by
    simp only [worstTradeOf, List.foldl_cons, List.foldl_nil, h1, h2, h3]
    norm_num [min_def, roundTo, jsRound]
  have hvol : totalVolumeOf [t1, t2, t3] =
      t1.entryPrice * t1.quantity + t2.entryPrice * t2.quantity +
        t3.entryPrice * t3.quantity := by
    simp [totalVolumeOf]
  refine ⟨hrate, havgp, havgl, hbest, hworst,
    by rw [mockDetailedStats]; rw [hvol], ?_, ?_, ?_, ?_, ?_, ?_⟩ <;>
    simp only [binanceDetailedStats, hcl] <;>
    first
      | exact hrate
      | exact havgp
      | exact havgl
      | exact hbest
      | exact hworst
      | rw [hvol]

/-- Witness for `detailedStats_scenario` at three concrete closed trades. -/
theorem detailedStats_scenario_witness :
    (wTradeA.profit = some 100 ∧ wTradeB.profit = some (-50) ∧
      wTradeC.profit = some 0 ∧ wTradeA.status = TradeStatus.closed ∧
      wTradeB.status = TradeStatus.closed ∧
      wTradeC.status = TradeStatus.closed) ∧
    ((mockDetailedStats [] [wTradeA, wTradeB, wTradeC]).winRate = 3333/100 ∧
    (mockDetailedStats [] [wTradeA, wTradeB, wTradeC]).avgProfit = 100 ∧
    (mockDetailedStats [] [wTradeA, wTradeB, wTradeC]).avgLoss = 50 ∧
    (mockDetailedStats [] [wTradeA, wTradeB, wTradeC]).bestTrade = 100 ∧
    (mockDetailedStats [] [wTradeA, wTradeB, wTradeC]).worstTrade = -50 ∧
    (mockDetailedStats [] [wTradeA, wTradeB, wTradeC]).totalVolume =
      jsRound (wTradeA.entryPrice * wTradeA.quantity +
        wTradeB.entryPrice * wTradeB.quantity +
        wTradeC.entryPrice * wTradeC.quantity) ∧
    (binanceDetailedStats 0 [wTradeA, wTradeB, wTradeC]).winRate = 3333/100 ∧
    (binanceDetailedStats 0 [wTradeA, wTradeB, wTradeC]).avgProfit = 100 ∧
    (binanceDetailedStats 0 [wTradeA, wTradeB, wTradeC]).avgLoss = 50 ∧
    (binanceDetailedStats 0 [wTradeA, wTradeB, wTradeC]).bestTrade = 100 ∧
    (binanceDetailedStats 0 [wTradeA, wTradeB, wTradeC]).worstTrade = -50 ∧
    (binanceDetailedStats 0 [wTradeA, wTradeB, wTradeC]).totalVolume =
      jsRound (wTradeA.entryPrice * wTradeA.quantity +
        wTradeB.entryPrice * wTradeB.quantity +
        wTradeC.entryPrice * wTradeC.quantity)) :=
  ⟨⟨rfl, rfl, rfl, rfl, rfl, rfl⟩,
    detailedStats_scenario [] 0 wTradeA wTradeB wTradeC rfl rfl rfl rfl rfl rfl⟩

end Ser

namespace Ser

/-! ## Claim C2: best/worst reductions are seeded at zero -/

theorem maxFromZero_nonneg (ps : List ℚ) : 0 ≤ maxFromZero ps := by
  induction ps with
  | nil => exact le_refl 0
  | cons p ps ih => exact le_trans ih (le_max_right p _)

theorem minFromZero_nonpos (ps : List ℚ) : minFromZero ps ≤ 0 := by
  induction ps with
  | nil => exact le_refl 0
  | cons p ps ih => exact le_trans (min_le_right p _) ih

theorem bestFold_eq (l : List Trade) :
    ∀ a : ℚ, 0 ≤ a →
      l.foldl (fun m t => match t.profit with | none => m | some p => max m p) a =
        max a (maxFromZero (profitsOf l)) := by
  induction l with
  | nil =>
    intro a ha
    simp [profitsOf, maxFromZero, max_eq_left ha]
  | cons t l ih =>
    intro a ha
    cases hp : t.profit with
    | none =>
      rw [List.foldl_cons]
      simp only [hp]
      rw [ih a ha]
      simp [profitsOf, hp]
    | some p =>
      rw [List.foldl_cons]
      simp only [hp]
      rw [ih (max a p) (le_trans ha (le_max_left a p))]
      simp only [profitsOf, maxFromZero, List.filterMap_cons, hp,
        List.foldr_cons]
      rw [max_assoc]

theorem worstFold_eq (l : List Trade) :
    ∀ a : ℚ, a ≤ 0 →
      l.foldl (fun m t => match t.profit with | none => m | some p => min m p) a =
        min a (minFromZero (profitsOf l)) := by
  induction l with
  | nil =>
    intro a ha
    simp [profitsOf, minFromZero, min_eq_left ha]
  | cons t l ih =>
    intro a ha
    cases hp : t.profit with
    | none =>
      rw [List.foldl_cons]
      simp only [hp]
      rw [ih a ha]
      simp [profitsOf, hp]
    | some p =>
      rw [List.foldl_cons]
      simp only [hp]
      rw [ih (min a p) (le_trans (min_le_left a p) ha)]
      simp only [profitsOf, minFromZero, List.filterMap_cons, hp,
        List.foldr_cons]
      rw [min_assoc]

theorem bestTradeOf_eq_spec (l : List Trade) :
    bestTradeOf l = maxFromZero (profitsOf l) := by
  rw [bestTradeOf, bestFold_eq l 0 le_rfl, max_eq_right (maxFromZero_nonneg _)]

theorem worstTradeOf_eq_spec (l : List Trade) :
    worstTradeOf l = minFromZero (profitsOf l) := by
  rw [worstTradeOf, worstFold_eq l 0 le_rfl, min_eq_right (minFromZero_nonpos _)]

theorem maxFromZero_of_nonpos {ps : List ℚ} (h : ∀ p ∈ ps, p ≤ 0) :
    maxFromZero ps = 0 := by
  induction ps with
  | nil => rfl
  | cons p ps ih =>
    have hps : maxFromZero ps = 0 :=
      ih (fun q hq => h q (List.mem_cons_of_mem p hq))
    show max p (maxFromZero ps) = 0
    rw [hps]
    exact max_eq_right (h p (List.mem_cons_self p ps))

theorem minFromZero_of_nonneg {ps : List ℚ} (h : ∀ p ∈ ps, 0 ≤ p) :
    minFromZero ps = 0 := by
  induction ps with
  | nil => rfl
  | cons p ps ih =>
    have hps : minFromZero ps = 0 :=
      ih (fun q hq => h q (List.mem_cons_of_mem p hq))
    show min p (minFromZero ps) = 0
    rw [hps]
    exact min_eq_right (h p (List.mem_cons_self p ps))

theorem closedOf_eq_self {l : List Trade}
    (h : ∀ t ∈ l, t.status = TradeStatus.closed) : closedOf l = l := by
  rw [closedOf, List.filter_eq_self]
  intro t ht
  simp [h t ht]

/-- Claim C2: in both detailed-statistics computations the best/worst
reductions are seeded at `0`: `bestTrade` is the maximum closed-trade
profit floored at 0 and `worstTrade` the minimum floored at 0 (each then
2-decimal rounded, which fixes `0`); an all-losing history reports
`bestTrade = 0` and an all-winning history reports `worstTrade = 0`, never
`±∞`. -/
theorem best_worst_seeded (active hist : List Trade) (n : ℕ)
    (hc : ∀ t ∈ hist, t.status = TradeStatus.closed) :
    (mockDetailedStats active hist).bestTrade =
      roundTo (maxFromZero (profitsOf hist)) 2 ∧
    (mockDetailedStats active hist).worstTrade =
      roundTo (minFromZero (profitsOf hist)) 2 ∧
    (binanceDetailedStats n hist).bestTrade =
      roundTo (maxFromZero (profitsOf hist)) 2 ∧
    (binanceDetailedStats n hist).worstTrade =
      roundTo (minFromZero (profitsOf hist)) 2 ∧
    ((∀ p ∈ profitsOf hist, p ≤ 0) →
      (mockDetailedStats active hist).bestTrade = 0 ∧
      (binanceDetailedStats n hist).bestTrade = 0) ∧
    ((∀ p ∈ profitsOf hist, 0 ≤ p) →
      (mockDetailedStats active hist).worstTrade = 0 ∧
      (binanceDetailedStats n hist).worstTrade = 0) := by
  have hm : (mockDetailedStats active hist).bestTrade =
      roundTo (maxFromZero (profitsOf hist)) 2 := by
    rw [mockDetailedStats, bestTradeOf_eq_spec]
  have hm2 : (mockDetailedStats active hist).worstTrade =
      roundTo (minFromZero (profitsOf hist)) 2 := by
    rw [mockDetailedStats, worstTradeOf_eq_spec]
  have hb : (binanceDetailedStats n hist).bestTrade =
      roundTo (maxFromZero (profitsOf hist)) 2 := by
    rw [binanceDetailedStats]
    simp only [closedOf_eq_self hc]
    rw [bestTradeOf_eq_spec]
  have hb2 : (binanceDetailedStats n hist).worstTrade =
      roundTo (minFromZero (profitsOf hist)) 2 := by
    rw [binanceDetailedStats]
    simp only [closedOf_eq_self hc]
    rw [worstTradeOf_eq_spec]
  refine ⟨hm, hm2, hb, hb2, ?_, ?_⟩
  · intro h
    rw [hm, hb, maxFromZero_of_nonpos h, roundTo_zero]
    exact ⟨rfl, rfl⟩
  · intro h
    rw [hm2, hb2, minFromZero_of_nonneg h, roundTo_zero]
    exact ⟨rfl, rfl⟩

/-- Witness for `best_worst_seeded` on an all-losing one-trade history:
`bestTrade` is `0`, not `-∞`. -/
theorem best_worst_seeded_witness :
    (∀ t ∈ [wTradeB], t.status = TradeStatus.closed) ∧
    (∀ p ∈ profitsOf [wTradeB], p ≤ 0) ∧
    (mockDetailedStats [] [wTradeB]).bestTrade = 0 ∧
    (binanceDetailedStats 0 [wTradeB]).bestTrade = 0 ∧
    (mockDetailedStats [] [wTradeB]).worstTrade =
      roundTo (minFromZero (profitsOf [wTradeB])) 2 := by
  refine ⟨by decide, by decide, ?_, ?_, ?_⟩
  · exact ((best_worst_seeded [] [wTradeB] 0 (by decide)).2.2.2.2.1
      (by decide)).1
  · exact ((best_worst_seeded [] [wTradeB] 0 (by decide)).2.2.2.2.1
      (by decide)).2
  · exact (best_worst_seeded [] [wTradeB] 0 (by decide)).2.1

end Ser

namespace Ser

/-! ## Claim C5: win-rate formula and bounds -/

theorem winRateOf_nonneg (l : List Trade) : 0 ≤ winRateOf l := by
  rw [winRateOf]
  split
  · exact le_refl 0
  · positivity

theorem winRateOf_le_100 (l : List Trade) : winRateOf l ≤ 100 := by
  rw [winRateOf]
  split
  · norm_num
  · rename_i hlen
    have hle : (winsOf l).length ≤ l.length := List.length_filter_le _ l
    have hpos : (0:ℚ) < l.length := by
      have hp : 0 < l.length := Nat.pos_of_ne_zero hlen
      exact_mod_cast hp
    rw [div_mul_eq_mul_div, div_le_iff₀ hpos]
    have hc : ((winsOf l).length : ℚ) ≤ (l.length : ℚ) := by exact_mod_cast hle
    linarith

/-- Claim C5: in both statistics computations the reported win rate lies
in `[0, 100]`, equals `100 × wins / closed` (2-decimal rounded, the
spec's stated output precision for percentages), and is `0` when there
are zero closed trades, with no division by zero. -/
theorem winRate_formula (active hist : List Trade) (n : ℕ) :
    (0 ≤ (mockDetailedStats active hist).winRate ∧
      (mockDetailedStats active hist).winRate ≤ 100 ∧
      (mockDetailedStats active hist).winRate =
        roundTo (if hist.length = 0 then 0
          else 100 * ((winsOf hist).length : ℚ) / hist.length) 2 ∧
      (hist.length = 0 → (mockDetailedStats active hist).winRate = 0)) ∧
    (0 ≤ (binanceDetailedStats n hist).winRate ∧
      (binanceDetailedStats n hist).winRate ≤ 100 ∧
      (binanceDetailedStats n hist).winRate =
        roundTo (if (closedOf hist).length = 0 then 0
          else 100 * ((winsOf (closedOf hist)).length : ℚ) /
            (closedOf hist).length) 2 ∧
      ((closedOf hist).length = 0 →
        (binanceDetailedStats n hist).winRate = 0)) := by
  have key : ∀ l : List Trade,
      winRateOf l =
        (if l.length = 0 then 0
          else 100 * ((winsOf l).length : ℚ) / l.length) := by
    intro l
    rw [winRateOf]
    split
    · rfl
    · ring
  have zero_case : ∀ l : List Trade, l.length = 0 →
      roundTo (winRateOf l) 2 = 0 := by
    intro l hl
    rw [winRateOf, if_pos hl, roundTo_zero]
  constructor
  · refine ⟨?_, ?_, ?_, ?_⟩
    · rw [mockDetailedStats]
      calc (0:ℚ) = roundTo 0 2 := roundTo_zero.symm
        _ ≤ roundTo (winRateOf hist) 2 := roundTo_mono 2 (winRateOf_nonneg hist)
    · rw [mockDetailedStats]
      calc roundTo (winRateOf hist) 2 ≤ roundTo 100 2 :=
            roundTo_mono 2 (winRateOf_le_100 hist)
        _ = 100 := roundTo_100
    · rw [mockDetailedStats, key]
    · intro h
      rw [mockDetailedStats]
      exact zero_case hist h
  · refine ⟨?_, ?_, ?_, ?_⟩
    · rw [binanceDetailedStats]
      calc (0:ℚ) = roundTo 0 2 := roundTo_zero.symm
        _ ≤ roundTo (winRateOf (closedOf hist)) 2 :=
            roundTo_mono 2 (winRateOf_nonneg _)
    · rw [binanceDetailedStats]
      calc roundTo (winRateOf (closedOf hist)) 2 ≤ roundTo 100 2 :=
            roundTo_mono 2 (winRateOf_le_100 _)
        _ = 100 := roundTo_100
    · rw [binanceDetailedStats, key]
    · intro h
      rw [binanceDetailedStats]
      exact zero_case _ h

/-- Witness for `winRate_formula`: the empty history reports a win rate of
`0` in both computations (and the inner zero-closed-trades hypotheses are
discharged at that input). -/
theorem winRate_formula_witness :
    (([] : List Trade).length = 0 ∧ (mockDetailedStats [] []).winRate = 0) ∧
    ((closedOf ([] : List Trade)).length = 0 ∧
      (binanceDetailedStats 0 []).winRate = 0) :=
  ⟨⟨rfl, (winRate_formula [] [] 0).1.2.2.2 rfl⟩,
    ⟨rfl, (winRate_formula [] [] 0).2.2.2.2 rfl⟩⟩

end Ser

namespace Ser

/-! ## Claim C3: `closeTrade` on a present id closes exactly one trade -/

theorem removeFirstById_found {l : List Trade} {tid : String}
    (h : ∃ t ∈ l, t.id = tid) :
    ∃ pre t post, l = pre ++ t :: post ∧ (∀ u ∈ pre, u.id ≠ tid) ∧
      t.id = tid ∧ removeFirstById l tid = some (t, pre ++ post) := by
  induction l with
  | nil => simp at h
  | cons a l ih =>
    by_cases ha : a.id = tid
    · exact ⟨[], a, l, rfl, by simp, ha, by simp [removeFirstById, ha]⟩
    · have h' : ∃ t ∈ l, t.id = tid := by
        obtain ⟨t, ht, htid⟩ := h
        rcases List.mem_cons.mp ht with rfl | hmem
        · exact absurd htid ha
        · exact ⟨t, hmem, htid⟩
      obtain ⟨pre, t, post, hl, hpre, htid, hrem⟩ := ih h'
      refine ⟨a :: pre, t, post, by rw [hl]; rfl, ?_, htid, ?_⟩
      · intro u hu
        rcases List.mem_cons.mp hu with rfl | hmem
        · exact ha
        · exact hpre u hmem
      · simp only [removeFirstById, if_neg ha, hrem, List.cons_append]

/-- Claim C3: for every trade id present in the active list, `closeTrade`
removes that trade (the first match) from the active list and prepends
exactly one record to the history with `status = closed`, non-null
`exitPrice` and `exitTime`, and
`profit = round₂((exitPrice − entryPrice) × quantity × (long ? 1 : -1))`
(2-decimal rounded, the spec's stated output precision). -/
theorem closeTrade_closes (priceOf : Str → Option ℚ) (now : String)
    (st : Store) (tid : String) (h : ∃ t ∈ st.active, t.id = tid) :
    ∃ pre t post ct st',
      st.active = pre ++ t :: post ∧ (∀ u ∈ pre, u.id ≠ tid) ∧ t.id = tid ∧
      closeTrade priceOf now st tid = (some ct, st') ∧
      st'.active = pre ++ post ∧
      st'.history = ct :: st.history ∧
      ct.status = TradeStatus.closed ∧
      ct.exitTime = some now ∧
      (∃ ep, ct.exitPrice = some ep ∧
        ct.profit = some (roundTo ((ep - t.entryPrice) * t.quantity *
          (if t.type = TradeType.long then 1 else -1)) 2)) := by
  obtain ⟨pre, t, post, hl, hpre, htid, hrem⟩ := removeFirstById_found h
  refine ⟨pre, t, post, ?ct, ?st', hl, hpre, htid, ?heq, ?hact, ?hhist,
    ?hst, ?het, ?hep⟩
  case heq =>
    simp only [closeTrade, hrem]
    exact rfl
  case hact => rfl
  case hhist => rfl
  case hst => rfl
  case het => rfl
  case hep =>
    refine ⟨_, rfl, ?_⟩
    simp only [calculateProfit]

/-- Witness for `closeTrade_closes` at a concrete store holding one active
trade with id `"t-1"`. -/
theorem closeTrade_closes_witness :
    (∃ t ∈ wStore.active, t.id = "t-1") ∧
    (∃ pre t post ct st',
      wStore.active = pre ++ t :: post ∧ (∀ u ∈ pre, u.id ≠ "t-1") ∧
      t.id = "t-1" ∧
      closeTrade noPrice "now" wStore "t-1" = (some ct, st') ∧
      st'.active = pre ++ post ∧
      st'.history = ct :: wStore.history ∧
      ct.status = TradeStatus.closed ∧
      ct.exitTime = some "now" ∧
      (∃ ep, ct.exitPrice = some ep ∧
        ct.profit = some (roundTo ((ep - t.entryPrice) * t.quantity *
          (if t.type = TradeType.long then 1 else -1)) 2))) :=
  ⟨by decide, closeTrade_closes noPrice "now" wStore "t-1" (by decide)⟩

end Ser

namespace Ser

/-! ## Claim C6: the available-balance invariant after position changes -/

theorem closeTrade_some_synced {priceOf : Str → Option ℚ} {now : String}
    {st : Store} {tid : String} {ct : Trade} {st' : Store}
    (h : closeTrade priceOf now st tid = (some ct, st')) :
    balancesSynced st' := by
  unfold closeTrade at h
  cases hrem : removeFirstById st.active tid with
  | none =>
    rw [hrem] at h
    dsimp only at h
    exact absurd h (by simp)
  | some pr =>
    obtain ⟨t, rest⟩ := pr
    rw [hrem] at h
    dsimp only at h
    rw [Prod.mk.injEq] at h
    rw [← h.2]
    rfl

theorem closeTrade_none_store {priceOf : Str → Option ℚ} {now : String}
    {st : Store} {tid : String} {st' : Store}
    (h : closeTrade priceOf now st tid = (none, st')) : st' = st := by
  unfold closeTrade at h
  cases hrem : removeFirstById st.active tid with
  | none =>
    rw [hrem] at h
    dsimp only at h
    rw [Prod.mk.injEq] at h
    exact h.2.symm
  | some pr =>
    obtain ⟨t, rest⟩ := pr
    rw [hrem] at h
    dsimp only at h
    exact absurd h (by simp)

theorem closeAllGo_synced (priceOf : Str → Option ℚ) (now : String)
    (tids : List String) (st : Store) (h : balancesSynced st) :
    balancesSynced (closeAllGo priceOf now tids st).2 := by
  induction tids generalizing st with
  | nil => exact h
  | cons tid tids ih =>
    rw [closeAllGo]
    cases hE : closeTrade priceOf now st tid with
    | mk oct st' =>
      cases oct with
      | none =>
        simp only
        refine ih st' ?_
        rw [closeTrade_none_store hE]
        exact h
      | some t =>
        simp only
        exact ih st' (closeTrade_some_synced hE)

/-- Claim C6 (amended): after every successful `closeTrade` — and after
`closeAllTrades` on a store with at least one active trade — the account's
available balance equals
`round₂(max(total − Σ entryPrice×quantity / max(leverage, 1), 0))`, i.e.
the claim's `total − Σ notional/leverage` clamped at zero, with the
leverage floored at 1 and the result rounded to 2 decimals. -/
theorem closeTrade_available_recomputed (priceOf : Str → Option ℚ)
    (now : String) (st : Store) :
    (∀ tid ct st', closeTrade priceOf now st tid = (some ct, st') →
      balancesSynced st') ∧
    (st.active ≠ [] → balancesSynced (closeAllTrades priceOf now st).2) := by
  constructor
  · intro tid ct st' h
    exact closeTrade_some_synced h
  · intro hne
    cases hL : st.active with
    | nil => exact absurd hL hne
    | cons a rest =>
      rw [closeAllTrades, hL, List.map_cons, closeAllGo]
      have hrem : removeFirstById st.active a.id = some (a, rest) := by
        rw [hL]
        simp [removeFirstById]
      have hsome : ∃ ct st', closeTrade priceOf now st a.id = (some ct, st') := by
        unfold closeTrade
        rw [hrem]
        exact ⟨_, _, rfl⟩
      obtain ⟨ct, st1, hsome⟩ := hsome
      rw [hsome]
      simp only
      exact closeAllGo_synced priceOf now _ st1 (closeTrade_some_synced hsome)

/-- Witness for `closeTrade_available_recomputed`: both branches exercised
on the concrete demo store. -/
theorem closeTrade_available_recomputed_witness :
    wStore.active ≠ [] ∧
    balancesSynced (closeAllTrades noPrice "now" wStore).2 ∧
    balancesSynced (closeTrade noPrice "now" wStore "t-1").2 := by
  have hne : wStore.active ≠ [] := by simp [wStore]
  have hrem : removeFirstById wStore.active "t-1" = some (wActiveTrade, []) := by
    decide
  have hsome : ∃ ct st',
      closeTrade noPrice "now" wStore "t-1" = (some ct, st') := by
    unfold closeTrade
    rw [hrem]
    exact ⟨_, _, rfl⟩
  obtain ⟨ct, st1, hsome⟩ := hsome
  refine ⟨hne, (closeTrade_available_recomputed noPrice "now" wStore).2 hne, ?_⟩
  rw [hsome]
  exact (closeTrade_available_recomputed noPrice "now" wStore).1 "t-1" ct st1 hsome

/-- Counterexample to claim C6 as stated: at the demo store (one remaining
position with leverage 3, margin `100/3`), the available balance produced
by closing trade `"t-1"` is the 2-decimal rounding `67.07`, which differs
from the claim's exact `total − Σ (entryPrice × quantity)/leverage`. -/
theorem closeTrade_available_claim_cex :
    ((closeTrade noPrice "now" wStore "t-1").2).account.availableBalance ≠
      specAvailableBalance ((closeTrade noPrice "now" wStore "t-1").2).account := by
  have hrem : removeFirstById wStore.active "t-1" = some (wActiveTrade, []) := by
    decide
  have hrp : removePosition wStore.account.positions
      (toSymbolKey wActiveTrade.symbol) = [wPosition] := by decide
  simp only [closeTrade, hrem, hrp]
  norm_num [wActiveTrade, wStore, wPosition, noPrice, calculateProfit,
    syncAccountBalances, marginUsed, specAvailableBalance, roundTo, jsRound,
    max_def]

end Ser

namespace Ser

/-! ## Claim C7: wire-format round trip for recognized quote assets -/

theorem quote_upper : ∀ q ∈ QUOTE_ASSETS, q.map Char.toUpper = q := by decide

theorem quote_not_suffix :
    ∀ q ∈ QUOTE_ASSETS, ∀ r ∈ QUOTE_ASSETS, q ≠ r → ¬ q <:+ r := by decide

theorem removeFirstChar_no_hit {B : Str} (h : '/' ∉ B) (rest : Str) :
    removeFirstChar '/' (B ++ '/' :: rest) = B ++ rest := by
  induction B with
  | nil => simp [removeFirstChar]
  | cons c B ih =>
    have hc : c ≠ '/' := fun hc => h (hc ▸ List.mem_cons_self c B)
    simp only [List.cons_append, removeFirstChar, if_neg hc]
    exact congrArg (List.cons c) (ih (fun hm => h (List.mem_cons_of_mem c hm)))

theorem fdsGo_finds (L : List Str) (B Q : Str) (hQ : Q ∈ L)
    (hpairs : ∀ q ∈ L, q ≠ Q → ¬ q <:+ Q ∧ ¬ Q <:+ q) :
    fdsGo L (B ++ Q) = B ++ '/' :: Q := by
  induction L with
  | nil => simp at hQ
  | cons q L ih =>
    by_cases hq : q = Q
    · subst hq
      rw [fdsGo, if_pos (List.isSuffixOf_iff_suffix.mpr (List.suffix_append B q))]
      rw [List.length_append, Nat.add_sub_cancel, List.take_left' rfl]
    · have hmem : q ∈ q :: L := List.mem_cons_self q L
      have hnotsuf : ¬ q.isSuffixOf (B ++ Q) = true := by
        rw [List.isSuffixOf_iff_suffix]
        intro hsuf
        rcases List.suffix_or_suffix_of_suffix hsuf (List.suffix_append B Q) with
          h1 | h2
        · exact (hpairs q hmem hq).1 h1
        · exact (hpairs q hmem hq).2 h2
      rw [fdsGo, if_neg hnotsuf]
      refine ih ?_ ?_
      · rcases List.mem_cons.mp hQ with rfl | hm
        · exact absurd rfl hq
        · exact hm
      · intro r hr hrne
        exact hpairs r (List.mem_cons_of_mem q hr) hrne

/-- Claim C7: for every recognized quote asset `Q` and base asset `B`
(uppercase, no slash), converting the display pair `B/Q` to wire form with
`pairToSymbol` and back with `formatDisplaySymbol` is the identity. -/
theorem pairToSymbol_round_trip (B Q : Str) (hQ : Q ∈ QUOTE_ASSETS)
    (hslash : '/' ∉ B) (hupper : B.map Char.toUpper = B) :
    formatDisplaySymbol (pairToSymbol (B ++ '/' :: Q)) = B ++ '/' :: Q := by
  have hne : B ++ '/' :: Q ≠ [] := by simp
  rw [pairToSymbol, if_neg hne, removeFirstChar_no_hit hslash Q,
    List.map_append, hupper, quote_upper Q hQ, formatDisplaySymbol]
  exact fdsGo_finds QUOTE_ASSETS B Q hQ
    (fun q hq hne2 => ⟨quote_not_suffix q hq Q hQ hne2,
      quote_not_suffix Q hQ q hq (Ne.symm hne2)⟩)

/-- Witness for `pairToSymbol_round_trip`:
`BTC/USDT → BTCUSDT → BTC/USDT`. -/
theorem pairToSymbol_round_trip_witness :
    ("USDT".data ∈ QUOTE_ASSETS ∧ '/' ∉ "BTC".data ∧
      "BTC".data.map Char.toUpper = "BTC".data) ∧
    formatDisplaySymbol (pairToSymbol ("BTC".data ++ '/' :: "USDT".data)) =
      "BTC".data ++ '/' :: "USDT".data :=
  ⟨⟨by decide, by decide, by decide⟩,
    pairToSymbol_round_trip "BTC".data "USDT".data (by decide) (by decide)
      (by decide)⟩

end Ser

namespace Ser

/-! ## Claim C8: masked secrets never overwrite stored credentials -/

theorem lookup_map_entries (g : String → SettingValue → SettingValue)
    (k : String) :
    ∀ m : SettingsMap,
      (m.map (fun e => (e.1, g e.1 e.2))).lookup k = (m.lookup k).map (g k)
  | [] => rfl
  | (k', v) :: m => by
    simp only [List.map_cons, List.lookup]
    cases hbeq : k == k' with
    | true =>
      have hkk : k = k' := eq_of_beq hbeq
      subst hkk
      rfl
    | false => exact lookup_map_entries g k m

theorem lookup_append (k : String) :
    ∀ l₁ l₂ : SettingsMap, (l₁ ++ l₂).lookup k = (l₁.lookup k).or (l₂.lookup k)
  | [], l₂ => rfl
  | (k', v) :: l₁, l₂ => by
    simp only [List.cons_append, List.lookup]
    cases hbeq : k == k' with
    | true => rfl
    | false => exact lookup_append k l₁ l₂

theorem eraseKey_cons_self (k : String) (v : SettingValue) (m : SettingsMap) :
    eraseKey k ((k, v) :: m) = eraseKey k m := by
  simp [eraseKey, List.filter_cons]

theorem eraseKey_cons_ne {k k' : String} (h : k' ≠ k) (v : SettingValue)
    (m : SettingsMap) :
    eraseKey k ((k', v) :: m) = (k', v) :: eraseKey k m := by
  simp [eraseKey, List.filter_cons, h]

theorem lookup_eraseKey_self (k : String) :
    ∀ m : SettingsMap, (eraseKey k m).lookup k = none
  | [] => rfl
  | (k', v) :: m => by
    by_cases hk : k' = k
    · subst hk
      rw [eraseKey_cons_self]
      exact lookup_eraseKey_self k' m
    · rw [eraseKey_cons_ne hk, List.lookup]
      have hbeq : (k == k') = false := by
        rw [beq_eq_false_iff_ne]
        exact fun he => hk he.symm
      rw [hbeq]
      exact lookup_eraseKey_self k m

theorem lookup_eraseKey_ne {k k' : String} (h : k' ≠ k) :
    ∀ m : SettingsMap, (eraseKey k m).lookup k' = m.lookup k'
  | [] => rfl
  | (k'', v) :: m => by
    by_cases hk : k'' = k
    · subst hk
      rw [eraseKey_cons_self, List.lookup]
      have hbeq : (k' == k'') = false := by
        rw [beq_eq_false_iff_ne]
        exact h
      rw [hbeq]
      exact lookup_eraseKey_ne h m
    · rw [eraseKey_cons_ne hk, List.lookup, List.lookup]
      cases hbeq : k' == k'' with
      | true => rfl
      | false => exact lookup_eraseKey_ne h m

theorem updateSettings_lookup (numParse : Str → ℚ) (settings m : SettingsMap)
    (k : String) :
    (updateSettings numParse settings m).lookup k =
      match m.lookup k with
      | none => settings.lookup k
      | some v => some (coerceValue numParse (settings.lookup k) v) := by
  rw [updateSettings, lookup_append,
    lookup_map_entries (fun key v => coerceValue numParse (settings.lookup key) v) k m]
  cases m.lookup k with
  | none => simp [Option.or]
  | some v => simp [Option.or]

theorem sanitize_lookup_key (envKey envSecret : Bool) (payload : SettingsMap)
    (hk : shouldDropSecret (payload.lookup "binanceApiKey") = true ∨
      payload.lookup "binanceApiKey" = none) :
    (sanitizeIncomingSettings envKey envSecret payload).lookup "binanceApiKey" =
      none := by
  rw [sanitizeIncomingSettings]
  have hne : ("binanceApiKey" : String) ≠ "binanceApiSecret" := by decide
  have main : ∀ p1 : SettingsMap, p1.lookup "binanceApiKey" = none →
      (if envSecret || shouldDropSecret (p1.lookup "binanceApiSecret") then
        eraseKey "binanceApiSecret" p1 else p1).lookup "binanceApiKey" = none := by
    intro p1 hp
    split
    · exact (lookup_eraseKey_ne hne p1).trans hp
    · exact hp
  split
  · exact main _ (lookup_eraseKey_self _ payload)
  · rename_i hc
    refine main _ ?_
    rcases hk with hdrop | hnone
    · exact absurd (by rw [hdrop, Bool.or_true]) hc
    · exact hnone

theorem sanitize_lookup_secret (envKey envSecret : Bool) (payload : SettingsMap)
    (hs : shouldDropSecret (payload.lookup "binanceApiSecret") = true ∨
      payload.lookup "binanceApiSecret" = none) :
    (sanitizeIncomingSettings envKey envSecret payload).lookup "binanceApiSecret" =
      none := by
  rw [sanitizeIncomingSettings]
  have hne : ("binanceApiSecret" : String) ≠ "binanceApiKey" := by decide
  have main : ∀ p1 : SettingsMap,
      p1.lookup "binanceApiSecret" = payload.lookup "binanceApiSecret" →
      (if envSecret || shouldDropSecret (p1.lookup "binanceApiSecret") then
        eraseKey "binanceApiSecret" p1 else p1).lookup "binanceApiSecret" = none := by
    intro p1 hpe
    split
    · exact lookup_eraseKey_self _ p1
    · rename_i hc
      rw [hpe] at hc
      rcases hs with hdrop | hnone
      · exact absurd (by rw [hdrop, Bool.or_true]) hc
      · exact hpe.trans hnone
  split
  · exact main _ (lookup_eraseKey_ne hne payload)
  · exact main _ rfl

theorem sanitize_lookup_other (envKey envSecret : Bool) (payload : SettingsMap)
    {k : String} (hk : k ≠ "binanceApiKey") (hs : k ≠ "binanceApiSecret") :
    (sanitizeIncomingSettings envKey envSecret payload).lookup k =
      payload.lookup k := by
  rw [sanitizeIncomingSettings]
  have step : ∀ p1 : SettingsMap, p1.lookup k = payload.lookup k →
      (if envSecret || shouldDropSecret (p1.lookup "binanceApiSecret") then
        eraseKey "binanceApiSecret" p1 else p1).lookup k = payload.lookup k := by
    intro p1 hpe
    split
    · exact (lookup_eraseKey_ne hs p1).trans hpe
    · exact hpe
  split
  · exact step _ (lookup_eraseKey_ne hk payload)
  · exact step _ rfl

/-- Claim C8: when the submitted `binanceApiKey` / `binanceApiSecret`
values are masked (contain the mask character, start with the environment
placeholder, or are blank) — or are simply absent — the sanitize + update
pipeline leaves the stored secrets unchanged, while every other submitted
field is still merged by the `updateSettings` rule. -/
theorem masked_secret_update (numParse : Str → ℚ) (envKey envSecret : Bool)
    (settings payload : SettingsMap)
    (hk : shouldDropSecret (payload.lookup "binanceApiKey") = true ∨
      payload.lookup "binanceApiKey" = none)
    (hs : shouldDropSecret (payload.lookup "binanceApiSecret") = true ∨
      payload.lookup "binanceApiSecret" = none) :
    (updateSettings numParse settings
        (sanitizeIncomingSettings envKey envSecret payload)).lookup
      "binanceApiKey" = settings.lookup "binanceApiKey" ∧
    (updateSettings numParse settings
        (sanitizeIncomingSettings envKey envSecret payload)).lookup
      "binanceApiSecret" = settings.lookup "binanceApiSecret" ∧
    ∀ k : String, k ≠ "binanceApiKey" → k ≠ "binanceApiSecret" →
      (updateSettings numParse settings
          (sanitizeIncomingSettings envKey envSecret payload)).lookup k =
        match payload.lookup k with
        | none => settings.lookup k
        | some v => some (coerceValue numParse (settings.lookup k) v) := by
  refine ⟨?_, ?_, ?_⟩
  · rw [updateSettings_lookup, sanitize_lookup_key envKey envSecret payload hk]
  · rw [updateSettings_lookup, sanitize_lookup_secret envKey envSecret payload hs]
  · intro k hk2 hs2
    rw [updateSettings_lookup,
      sanitize_lookup_other envKey envSecret payload hk2 hs2]

/-- Witness for `masked_secret_update`: a bullet-masked key and an empty
secret are dropped while `maxRiskPerTrade` is still merged. -/
theorem masked_secret_update_witness :
    (shouldDropSecret (wPayload.lookup "binanceApiKey") = true ∧
      shouldDropSecret (wPayload.lookup "binanceApiSecret") = true) ∧
    (updateSettings wNumParse wSettings
        (sanitizeIncomingSettings false false wPayload)).lookup
      "binanceApiKey" = wSettings.lookup "binanceApiKey" ∧
    (updateSettings wNumParse wSettings
        (sanitizeIncomingSettings false false wPayload)).lookup
      "binanceApiSecret" = wSettings.lookup "binanceApiSecret" ∧
    (updateSettings wNumParse wSettings
        (sanitizeIncomingSettings false false wPayload)).lookup
      "maxRiskPerTrade" =
      match wPayload.lookup "maxRiskPerTrade" with
      | none => wSettings.lookup "maxRiskPerTrade"
      | some v => some (coerceValue wNumParse
          (wSettings.lookup "maxRiskPerTrade") v) :=
  ⟨⟨by decide, by decide⟩,
    (masked_secret_update wNumParse false false wSettings wPayload
      (Or.inl (by decide)) (Or.inl (by decide))).1,
    (masked_secret_update wNumParse false false wSettings wPayload
      (Or.inl (by decide)) (Or.inl (by decide))).2.1,
    (masked_secret_update wNumParse false false wSettings wPayload
      (Or.inl (by decide)) (Or.inl (by decide))).2.2
      "maxRiskPerTrade" (by decide) (by decide)⟩

end Ser
